import Mathlib

/-!
Verification of the universal-framework build script (`src/devel/src/BuildFW.py`)
against its natural-language specification.

The Python source is shallowly embedded below.  Pure path computations become
Lean functions on `String`; the filesystem is passed explicitly (a map from
path to content for the JSON state files, a map from path to modification time
for the staleness logic, an association list of entries for the symlink logic);
fallible operations (`json.loads` raising, `os.stat` raising) return `Except`.
Modification times are `Nat` (seconds; the code only compares them and tests
them for falsiness, so no float structure is needed).
-/

namespace BuildFW

/-- The environment variables the build script reads (`os.environ`).
`SUPPORTED_PLATFORMS` is stored already split on a single space, as the script
does at every use site (`os.environ['SUPPORTED_PLATFORMS'].split(' ')`);
Python's `split(' ')` never returns an empty list, so claims about the state
store carry a nonemptiness hypothesis where that matters.
`UFW_MASTER_PLATFORM` is `none` when the variable is absent. -/
structure Env where
  supported_platforms : List String
  platform_name : String
  ufw_master_platform : Option String
  project_temp_dir : String
  configuration : String
  product_name : String
  current_variant : String
  object_file_dir : String
  executable_name : String
  built_products_dir : String
  executable_path : String
  archs : List String
  dt_toolchain_dir : String
  source_root : String
  framework_version : String
  wrapper_name : String
deriving DecidableEq, Repr

/-- Source line 63: `config_fail_on_warnings = True`. -/
def config_fail_on_warnings : Bool := true

/-- Source line 22: `config_deep_header_hierarchy = True`. -/
def config_deep_header_hierarchy : Bool := true

/-- Source lines 340-341, `is_master()`:
`os.environ.get('UFW_MASTER_PLATFORM', os.environ['PLATFORM_NAME']) ==
os.environ['PLATFORM_NAME']` — true iff the marker is absent or names the
current platform. -/
def is_master (env : Env) : Bool :=
  (env.ufw_master_platform.getD env.platform_name) == env.platform_name

/-- The in-memory fields of `BuildState` (source lines 99-156).  These are
exactly the attributes `reset` establishes, and thus exactly the keys the
persisted JSON dictionary (`json.dumps(self.__dict__)`) has, so a parsed
on-disk dictionary has the same shape. -/
structure BuildState where
  platforms : List String
  last_completion : Nat
  slave_platform : Option String
  slave_architectures : List String
  slave_linked_archive_paths : List String
  slave_built_fw_path : Option String
  slave_built_embedded_fw_path : Option String
deriving DecidableEq, Repr

/-- Source lines 105-112, `BuildState.reset`: re-derive `platforms` from the
environment and clear every other field. -/
def reset (env : Env) : BuildState :=
  { platforms := env.supported_platforms
    last_completion := 0
    slave_platform := none
    slave_architectures := []
    slave_linked_archive_paths := []
    slave_built_fw_path := none
    slave_built_embedded_fw_path := none }

/-- Source lines 114-122, `BuildState.set_slave_properties`. -/
def set_slave_properties (env : Env) (s : BuildState)
    (architectures linked_archive_paths : List String)
    (built_fw_path built_embedded_fw_path : String) : BuildState :=
  { s with
    slave_platform := some env.platform_name
    slave_architectures := architectures
    slave_linked_archive_paths := linked_archive_paths
    slave_built_fw_path := some built_fw_path
    slave_built_embedded_fw_path := some built_embedded_fw_path }

/-- Source lines 124-129, `BuildState.get_platform_path`:
`"%s/%s-%s/%s.build/Objects-%s/ufw_build_state.json"`. -/
def get_platform_path (env : Env) (platform : String) : String :=
  env.project_temp_dir ++ "/" ++ env.configuration ++ "-" ++ platform ++ "/"
    ++ env.product_name ++ ".build/Objects-" ++ env.current_variant
    ++ "/ufw_build_state.json"

/-- Content of a state file on disk: either text that `json.loads` rejects
(raising `ValueError`), or a well-formed serialized state dictionary. -/
inductive Content where
  | malformed : Content
  | valid : BuildState → Content
deriving DecidableEq, Repr

/-- The content filesystem seen by the state store: `none` means the path does
not exist. -/
def CFS : Type := String → Option Content

/-- Source lines 145-149, `BuildState.load_from_json`: if the file does not
exist, return `None`; otherwise read it and run `json.loads`, which raises on
malformed content (there is no `try`/`except` around it in the source). -/
def load_from_json (fs : CFS) (filename : String) : Except Unit (Option BuildState) :=
  match fs filename with
  | none => Except.ok none
  | some Content.malformed => Except.error ()
  | some (Content.valid d) => Except.ok (some d)

/-- The list comprehension at source line 137: load each platform's state file
left to right, propagating the first exception. -/
def load_all (env : Env) (fs : CFS) : List String → Except Unit (List (Option BuildState))
  | [] => Except.ok []
  | p :: rest =>
    match load_from_json fs (get_platform_path env p) with
    | Except.error e => Except.error e
    | Except.ok d =>
      match load_all env fs rest with
      | Except.error e => Except.error e
      | Except.ok ds => Except.ok (d :: ds)

/-- Pure view of a single load when no exception occurs: `some d` iff the file
exists and parses to `d`. -/
def load_opt (fs : CFS) (filename : String) : Option BuildState :=
  match fs filename with
  | some (Content.valid d) => some d
  | _ => none

/-- Source lines 135-143, `BuildState.reload`: reset, load every platform's
copy, then `if not dicts[1:] == dicts[:-1] or dicts[0] is None:` reset again,
else adopt `dicts[0]` (the `__dict__` merge with a complete dictionary
replaces every field, so adoption yields exactly the loaded state).  Python
would raise `IndexError` on `dicts[0]` for an empty platform list; that list
is never empty (`split(' ')`), and the `head?`-is-`none` branch here is the
unreachable placeholder for it. -/
def reload (env : Env) (fs : CFS) : Except Unit BuildState :=
  match load_all env fs env.supported_platforms with
  | Except.error e => Except.error e
  | Except.ok dicts =>
    match dicts.head? with
    | none => Except.ok (reset env)
    | some none => Except.ok (reset env)
    | some (some d) =>
      if dicts.drop 1 = dicts.dropLast then Except.ok d else Except.ok (reset env)

/-- One step of the write loop in source lines 131-133 / 151-156: writing a
state replaces the file's content with the serialized dictionary (always valid
JSON). -/
def write_state (fs : CFS) (filename : String) (s : BuildState) : CFS :=
  fun q => if q = filename then some (Content.valid s) else fs q

/-- Source lines 131-133, `BuildState.persist`: write the serialized state to
the state-file location of every platform in `self.platforms` (the in-memory
field, which is what the loop iterates). -/
def persist (env : Env) (s : BuildState) (fs : CFS) : CFS :=
  s.platforms.foldl (fun acc p => write_state acc (get_platform_path env p) s) fs

/-! ### Linking and staleness (source lines 261-303, 446-463, 512-562) -/

/-- Modification-time view of the filesystem: `mfs p = some t` means
`os.path.exists(p)` is true and `os.path.getmtime(p) = t`; `none` means the
path is missing, so `getmtime` raises `OSError`. -/
def MFS : Type := String → Option Nat

/-- Source lines 263-266, `Project.get_linked_archive_path`: the architecture's
linked archive produced by the normal build,
`"%s/%s/%s" % (OBJECT_FILE_DIR_<variant>, architecture, EXECUTABLE_NAME)`. -/
def get_linked_archive_path (env : Env) (architecture : String) : String :=
  env.object_file_dir ++ "/" ++ architecture ++ "/" ++ env.executable_name

/-- Source lines 269-270, `Project.get_linked_ufw_archive_path`: the script's
own per-architecture intermediate archive. -/
def get_linked_ufw_archive_path (env : Env) (architecture : String) : String :=
  get_linked_archive_path env architecture ++ ".ufwbuild"

/-- Source line 176, `Project.local_exe_path`:
`BUILT_PRODUCTS_DIR + "/" + EXECUTABLE_PATH`. -/
def local_exe_path (env : Env) : String :=
  env.built_products_dir ++ "/" ++ env.executable_path

/-- Source lines 447-456, `are_link_targets_clean`: for every local
architecture fetch both modification times, returning `False` on the first
`OSError` (missing file) and `False` when either time is falsy (`not
link_time` / `not ufw_time`, i.e. equal to `0`) or the linked archive is newer
than the intermediate archive. -/
def are_link_targets_clean (env : Env) (mfs : MFS) : Bool :=
  env.archs.all fun arch =>
    match mfs (get_linked_archive_path env arch),
          mfs (get_linked_ufw_archive_path env arch) with
    | some link_time, some ufw_time =>
      !(link_time == 0 || ufw_time == 0 || link_time > ufw_time)
    | _, _ => false

/-- Source lines 516, 529-530 of `run_build`: `rebuild_needed` starts `True`;
on the master, if the primary linked executable exists it becomes
`getmtime(local_exe_path) > build_state.last_completion`. -/
def rebuild_needed (env : Env) (mfs : MFS) (s : BuildState) : Bool :=
  if is_master env then
    match mfs (local_exe_path env) with
    | some m => m > s.last_completion
    | none => true
  else true

/-- Which pipeline stages a `run_build` invocation executes. -/
structure RunPhases where
  invoked_slave : Bool
  set_slave_props : Bool
  per_arch_link : Bool
  final_link : Bool
  header_restore : Bool
  add_symlinks : Bool
  build_embedded : Bool
  master_finalize : Bool
deriving DecidableEq, Repr

/-- Control flow of `run_build` (source lines 512-562): everything below the
entry guard runs only when `rebuild_needed` holds; the slave build / slave
reporting split on `is_master`; `relink_project` (per-architecture links, and
the final universal link on the master — source lines 458-463) runs only when
`if not are_link_targets_clean(project)` (line 547); header restoration is
additionally gated on `config_deep_header_hierarchy`; symlinks, embedded
bundle and the master's finalization follow.  `mfs_entry` is the
modification-time view when the entry guard runs, `mfs_link` the view when the
staleness check runs (after the slave build returned). -/
def run_build_phases (env : Env) (s : BuildState) (mfs_entry mfs_link : MFS) :
    RunPhases :=
  let rebuild := rebuild_needed env mfs_entry s
  let relink := rebuild && !(are_link_targets_clean env mfs_link)
  { invoked_slave := rebuild && is_master env
    set_slave_props := rebuild && !(is_master env)
    per_arch_link := relink
    final_link := relink && is_master env
    header_restore := rebuild && config_deep_header_hierarchy
    add_symlinks := rebuild
    build_embedded := rebuild
    master_finalize := rebuild && is_master env }

/-- Effect of `relink_project` (source lines 458-463) on modification times at
time `t`: each per-architecture intermediate archive is rewritten in place
(`libtool ... -o <path>.ufwbuild`), so its modification time becomes `t`;
nothing else the staleness check looks at is touched. -/
def relink_mfs (env : Env) (mfs : MFS) (t : Nat) : MFS :=
  fun p =>
    if p ∈ env.archs.map (get_linked_ufw_archive_path env) then some t else mfs p

/-! ### The final universal link command (source lines 272-303) -/

/-- A file reference node of the project model, as consumed by
`Project.get_exe_path`: its full path split into components and its Xcode file
type. -/
structure FileNode where
  fullPath : List String
  fileType : String
deriving DecidableEq, Repr

/-- `os.path.splitext(s)[0]` for a single path component: drop the extension
beginning at the last dot, where leading dots of the name are part of the root
(CPython semantics: `splitext('.framework') = ('.framework', '')`). -/
def py_splitext_root (s : String) : String :=
  let cs := s.toList
  let leading := cs.takeWhile (fun c => c = '.')
  let rest := cs.drop leading.length
  let revRest := rest.reverse
  match revRest.findIdx? (fun c => c = '.') with
  | none => s
  | some i => String.mk (leading ++ (rest.take (rest.length - i - 1)))

/-- Source lines 273-278, `Project.get_exe_path`: `SOURCE_ROOT + "/" +
"/".join(fullPath)`, and for a framework (a directory) one component deeper,
the bundle name with its extension stripped. -/
def get_exe_path (env : Env) (node : FileNode) : String :=
  let path := env.source_root ++ "/" ++ String.intercalate "/" node.fullPath
  if node.fileType = "wrapper.framework" then
    path ++ "/" ++ py_splitext_root (node.fullPath.getLastD "")
  else path

/-- The inputs `Project.get_final_link_command` draws on: the current
platform's per-architecture archives (`local_linked_archive_paths`, source
line 180: the ufw archive path of every local architecture in `ARCHS` order),
the slave's reported archives from the build state, and the target's static
framework/library dependency nodes. -/
structure LinkInputs where
  local_linked_archive_paths : List String
  slave_linked_archive_paths : List String
  static_frameworks : List FileNode
  static_libraries : List FileNode
deriving DecidableEq, Repr

/-- Source lines 296-303, `Project.get_final_link_command`, building the
command by successive concatenation exactly as the source does. -/
def get_final_link_command (env : Env) (p : LinkInputs) : List String :=
  let cmd := [env.dt_toolchain_dir ++ "/usr/bin/libtool", "-static"]
  let cmd := cmd ++ p.local_linked_archive_paths ++ p.slave_linked_archive_paths
  let cmd := cmd ++ p.static_frameworks.map (get_exe_path env)
  let cmd := cmd ++ p.static_libraries.map (get_exe_path env)
  cmd ++ ["-o", env.built_products_dir ++ "/" ++ env.executable_path]

/-! ### Header hierarchy restoration — the prune step
(source lines 343-350, 393-400, 468-484) -/

/-- The directory state under the header output root
(`BUILT_PRODUCTS_DIR/PUBLIC_HEADERS_FOLDER_PATH`) that the prune step looks
at: `entries` is `os.listdir` of the root, `isDir name` whether
`root/<name>` is a directory, and `isFile comps` whether the path obtained by
joining `comps` under the root is a regular file. -/
structure HeaderFS where
  entries : List String
  isDir : String → Bool
  isFile : List String → Bool

/-- `os.path.split(x)[-1]` — the basename of a single component (components
produced by the project model may themselves contain slashes): everything
after the last slash. -/
def py_basename (s : String) : String :=
  String.mk ((s.toList.reverse.takeWhile fun c => c ≠ '/').reverse)

/-- Source lines 390-394, `top_level_file_path`: the flat location of a header
under the output root is the basename of its last component, as a single
root-relative component. -/
def top_level_components (header : List String) : List String :=
  [py_basename (header.getLastD "")]

/-- Source line 479: `ignore_headers = filter(lambda x: not
os.path.isfile(top_level_file_path(built_headers_path, x)), movable_headers)`
— the movable headers whose flattened copy does not currently exist. -/
def ignore_headers (fs : HeaderFS) (movable : List (List String)) :
    List (List String) :=
  movable.filter fun h => !(fs.isFile (top_level_components h))

/-- Source line 480: `[file[0] for file in ignore_headers]` — the first path
component of each such header, the subdirectory names the prune must spare. -/
def ignore_firsts (fs : HeaderFS) (movable : List (List String)) : List String :=
  (ignore_headers fs movable).map fun h => h.headD ""

/-- Source lines 344-350, `remove_subdirs`: of the names listed under the
root, those not in the ignore list that are directories get `shutil.rmtree`d.
This returns the list of removed subdirectory names. -/
def remove_subdirs_removed (fs : HeaderFS) (ignore_files : List String) :
    List String :=
  (fs.entries.filter fun n => !(ignore_files.contains n)).filter fun n => fs.isDir n

/-- The subdirectory names the prune step of `build_deep_header_hierarchy`
(source lines 478-480) removes. -/
def prune_removed (fs : HeaderFS) (movable : List (List String)) : List String :=
  remove_subdirs_removed fs (ignore_firsts fs movable)

/-- Stated from the claim's words, for comparison with the code: subdirectory
`d` under the output root contains a file corresponding to a header about to
be moved in this pass — a movable header whose flattened copy exists (so the
move step will move it), whose nested destination lies inside `d` (first
component `d`, at least two components), and whose destination file is
present in `d`. -/
def contains_about_to_move_file (fs : HeaderFS) (movable : List (List String))
    (d : String) : Bool :=
  movable.any fun h =>
    fs.isFile (top_level_components h) && h.headD "" == d
      && decide (2 ≤ h.length) && fs.isFile h

/-! ### Slave build output trimming (source lines 415-425) -/

/-- Python's `sep in s` for character lists: some tail of `s` starts with
`sep`. -/
def occursIn (sep : List Char) : List Char → Bool
  | [] => sep.isEmpty
  | c :: rest => sep.isPrefixOf (c :: rest) || occursIn sep rest

/-- Python's `s.split(sep)` for a nonempty separator: cut at every
non-overlapping occurrence, scanning left to right.  Structured with explicit
fuel (an upper bound on the input length, so the fuel-exhausted branch is
unreachable) to keep the recursion structural. -/
def py_split_fuel (sep : List Char) : Nat → List Char → List (List Char)
  | _, [] => [[]]
  | 0, s => [s]
  | n + 1, c :: rest =>
    if sep.isPrefixOf (c :: rest) then
      [] :: py_split_fuel sep n (rest.drop (sep.length - 1))
    else
      match py_split_fuel sep n rest with
      | [] => [[c]]
      | chunk :: more => (c :: chunk) :: more

/-- Python's `s.split(sep)` for a nonempty separator. -/
def py_split (sep : List Char) (s : List Char) : List (List Char) :=
  py_split_fuel sep s.length s

/-- The text before the first occurrence of `sep` (all of `s` when `sep` does
not occur). -/
def take_before_first (sep : List Char) : List Char → List Char
  | [] => []
  | c :: rest =>
    if sep.isPrefixOf (c :: rest) then [] else c :: take_before_first sep rest

/-- The suffix of `s` starting at the first occurrence of `sep` (empty when
`sep` does not occur): the claim's "original output with everything before the
first occurrence of the banner removed and nothing after that point
removed". -/
def drop_before_first (sep : List Char) : List Char → List Char
  | [] => []
  | c :: rest =>
    if sep.isPrefixOf (c :: rest) then c :: rest else drop_before_first sep rest

/-- Source line 416: `separator = '=== BUILD NATIVE TARGET '`. -/
def ufw_separator : List Char := "=== BUILD NATIVE TARGET ".toList

/-- Source lines 415-423, `print_and_call_slave_build`, the transformation
applied to the captured combined output before logging:
`result = output.split(separator)`; if there was no occurrence log the output
unchanged, otherwise log `separator + result[1]`. -/
def slave_output_trimmed (output : List Char) : List Char :=
  match py_split ufw_separator output with
  | [r] => r
  | _ :: r1 :: _ => ufw_separator ++ r1
  | [] => []

/-! ### Framework symlinks (source lines 381-388, 486-493) -/

/-- A filesystem entry for the symlink model. -/
inductive Entry where
  | file : Entry
  | dir : Entry
  | symlink : String → Entry
deriving DecidableEq, Repr

/-- Filesystem for the symlink step: an association list from normalized path
components to entries (most recent write first). -/
abbrev SFS : Type := List (List String × Entry)

/-- Look up a path. -/
def sfs_find (fs : SFS) (p : List String) : Option Entry :=
  match fs.find? (fun e => e.1 = p) with
  | some e => some e.2
  | none => none

/-- Split a character list at every occurrence of a separator character. -/
def split_char (sep : Char) : List Char → List (List Char)
  | [] => [[]]
  | c :: rest =>
    if c = sep then [] :: split_char sep rest
    else
      match split_char sep rest with
      | [] => [[c]]
      | chunk :: more => (c :: chunk) :: more

/-- Split a path string on slashes, dropping empty components. -/
def split_path (s : String) : List String :=
  ((split_char '/' s.toList).map String.mk).filter fun c => !(c == "")

/-- Lexical normalization as performed by `os.path.abspath`: `..` removes the
preceding component, `.` disappears. -/
def normalize_path (comps : List String) : List String :=
  comps.foldl
    (fun acc c => if c = ".." then acc.dropLast else if c = "." then acc else acc ++ [c])
    []

/-- The path `os.stat` checks in `attempt_symlink`:
`os.path.abspath(link_path + "/../" + link_to)`. -/
def symlink_target_path (link_path link_to : String) : List String :=
  normalize_path (split_path link_path ++ [".."] ++ split_path link_to)

/-- Source lines 381-388, `attempt_symlink`: first `os.stat` the normalized
target (raising when it does not exist), then create the link only if the
link path does not already exist.  Existence is modeled as presence of an
entry at the normalized path (the script only creates links whose targets it
has just verified, so following links is not needed for these properties). -/
def attempt_symlink (fs : SFS) (link_path link_to : String) : Except Unit SFS :=
  if (sfs_find fs (symlink_target_path link_path link_to)).isNone then
    Except.error ()
  else if (sfs_find fs (normalize_path (split_path link_path))).isSome then
    Except.ok fs
  else
    Except.ok ((normalize_path (split_path link_path), Entry.symlink link_to) :: fs)

/-- Source line 178, `Project.local_built_fw_path`:
`BUILT_PRODUCTS_DIR + "/" + WRAPPER_NAME`. -/
def local_built_fw_path (env : Env) : String :=
  env.built_products_dir ++ "/" ++ env.wrapper_name

/-- `os.path.isdir` in the symlink model. -/
def sfs_isdir (fs : SFS) (p : String) : Bool :=
  sfs_find fs (normalize_path (split_path p)) == some Entry.dir

/-- Source lines 486-493, `add_symlinks_to_framework`: inside the versioned
bundle, link `Versions/Current` to the framework version, `Headers` and
`Resources` to their current-version directories when those exist, and the
top-level executable name to the current version's executable. -/
def add_symlinks_to_framework (env : Env) (fs : SFS) : Except Unit SFS :=
  let base := local_built_fw_path env ++ "/"
  match attempt_symlink fs (base ++ "Versions/Current") env.framework_version with
  | Except.error e => Except.error e
  | Except.ok fs1 =>
    match
      (if sfs_isdir fs1 (base ++ "Versions/Current/Headers") then
        attempt_symlink fs1 (base ++ "Headers") "Versions/Current/Headers"
      else Except.ok fs1) with
    | Except.error e => Except.error e
    | Except.ok fs2 =>
      match
        (if sfs_isdir fs2 (base ++ "Versions/Current/Resources") then
          attempt_symlink fs2 (base ++ "Resources") "Versions/Current/Resources"
        else Except.ok fs2) with
      | Except.error e => Except.error e
      | Except.ok fs3 =>
        attempt_symlink fs3 (base ++ env.executable_name)
          ("Versions/Current/" ++ env.executable_name)

/-! ### Top-level flow (source lines 556-562, 565-598) -/

/-- State of the build state object at the end of `run_build` on a master
invocation (source lines 534-562): when the entry guard demanded a rebuild,
the master finalization resets the state and stamps `last_completion` with the
completion time `t`; on the skip path the state is left as reloaded. -/
def run_build_state_master (env : Env) (s : BuildState) (mfs_entry : MFS)
    (t : Nat) : BuildState :=
  if rebuild_needed env mfs_entry s then
    { reset env with last_completion := t }
  else s

/-- The `__main__` epilogue (source lines 583-598): on an exception the state
is reset and the exit code is 1; otherwise the state reached at the end of
`run_build` is kept and the exit code is 1 exactly when warnings were issued
and `config_fail_on_warnings` is set, 0 otherwise.  Either way the resulting
state is what `finally: build_state.persist()` writes.  Returns (exit code,
persisted state). -/
def main_outcome (env : Env) (raised : Bool) (issued_warnings : Bool)
    (final_state : BuildState) : Nat × BuildState :=
  if raised then (1, reset env)
  else ((if issued_warnings && config_fail_on_warnings then 1 else 0), final_state)


theorem load_all_eq (env : Env) (fs : CFS) (l : List String) :
    load_all env fs l =
      if ∀ p ∈ l, fs (get_platform_path env p) ≠ some Content.malformed
      then Except.ok (l.map fun p => load_opt fs (get_platform_path env p))
      else Except.error () := by
  induction l with
  | nil => simp [load_all]
  | cons p rest ih =>
    by_cases hrest : ∀ q ∈ rest, fs (get_platform_path env q) ≠ some Content.malformed
    · rw [if_pos] at ih
      · cases hfs : fs (get_platform_path env p) with
        | none =>
          have hcond : ∀ q ∈ p :: rest, fs (get_platform_path env q) ≠ some Content.malformed := by
            intro q hq
            rcases List.mem_cons.mp hq with rfl | hq'
            · simp [hfs]
            · exact hrest q hq'
          simp only [load_all, load_from_json, hfs, ih]
          rw [if_pos hcond]
          simp [load_opt, hfs]
        | some c =>
          cases c with
          | malformed =>
            have hcond : ¬ ∀ q ∈ p :: rest, fs (get_platform_path env q) ≠ some Content.malformed := by
              intro hall
              exact hall p (List.mem_cons_self p rest) hfs
            simp [load_all, load_from_json, hfs, hcond]
          | valid d =>
            have hcond : ∀ q ∈ p :: rest, fs (get_platform_path env q) ≠ some Content.malformed := by
              intro q hq
              rcases List.mem_cons.mp hq with rfl | hq'
              · simp [hfs]
              · exact hrest q hq'
            simp only [load_all, load_from_json, hfs, ih]
            rw [if_pos hcond]
            simp [load_opt, hfs]
      · exact hrest
    · rw [if_neg hrest] at ih
      have hcond : ¬ ∀ q ∈ p :: rest, fs (get_platform_path env q) ≠ some Content.malformed := by
      
        intro hall
        exact hrest fun q hq => hall q (List.mem_cons_of_mem p hq)
      cases hfs : fs (get_platform_path env p) with
      | none =>
        simp only [load_all, load_from_json, hfs, ih]
        rw [if_neg hcond]
      | some c =>
        cases c with
        | malformed =>
          simp only [load_all, load_from_json, hfs]
          rw [if_neg hcond]
        | valid d =>
          simp only [load_all, load_from_json, hfs, ih]
          rw [if_neg hcond]



/-- `load_all` raises exactly when some state file exists but is malformed. -/
theorem load_all_error_iff (env : Env) (fs : CFS) (l : List String) :
    load_all env fs l = Except.error () ↔
      ∃ p ∈ l, fs (get_platform_path env p) = some Content.malformed := by
  rw [load_all_eq]
  by_cases h : ∀ p ∈ l, fs (get_platform_path env p) ≠ some Content.malformed
  · rw [if_pos h]
    constructor
    · intro hc; exact absurd hc (by simp)
    · rintro ⟨p, hp, hmal⟩
      exact absurd hmal (h p hp)
  · rw [if_neg h]
    push_neg at h
    simpa using h

/-- The Python idiom `dicts[1:] == dicts[:-1]` holds exactly when all elements
of the list are equal. -/
theorem drop_one_eq_dropLast_iff {α : Type} (l : List α) :
    l.drop 1 = l.dropLast ↔ ∀ a ∈ l, ∀ b ∈ l, a = b := by
  induction l with
  | nil => simp
  | cons a t ih =>
    cases t with
    | nil => simp
    | cons b t' =>
      have hd : (a :: b :: t').drop 1 = b :: t' := by simp
      have hdl : (a :: b :: t').dropLast = a :: (b :: t').dropLast := by
        simp [List.dropLast]
      rw [hd, hdl]
      constructor
      · intro h
        have hab : b = a := by
          have := congrArg List.head? h
          simpa using this
        have ht : t' = (b :: t').dropLast := by
          have := congrArg List.tail h
          simpa using this
        have hall : ∀ x ∈ b :: t', ∀ y ∈ b :: t', x = y := by
          apply ih.mp
          simpa using ht
        intro x hx y hy
        rcases List.mem_cons.mp hx with rfl | hx' <;>
          rcases List.mem_cons.mp hy with rfl | hy'
        · rfl
        · exact (hab.symm.trans (hall b (by simp) y hy'))
        · exact ((hall x hx' b (by simp)).trans hab)
        · exact hall x hx' y hy'
      · intro h
        have hab : a = b := h a (by simp) b (by simp)
        have hall : ∀ x ∈ b :: t', ∀ y ∈ b :: t', x = y := by
          intro x hx y hy
          exact h x (List.mem_cons_of_mem a hx) y (List.mem_cons_of_mem a hy)
        have heq := ih.mpr hall
        rw [← heq, hab]
        simp

/-- Unfolding equation for `reload`. -/
theorem reload_eq (env : Env) (fs : CFS) :
    reload env fs =
      match load_all env fs env.supported_platforms with
      | Except.error e => Except.error e
      | Except.ok dicts =>
        match dicts.head? with
        | none => Except.ok (reset env)
        | some none => Except.ok (reset env)
        | some (some d) =>
          if dicts.drop 1 = dicts.dropLast then Except.ok d
          else Except.ok (reset env) := rfl

/-- C1 (amended): `reload` raises exactly when some state file exists but is
malformed (so a parse failure is fatal, not "treated as missing"); when no
file is malformed, it adopts the shared parsed value exactly when every
platform's copy exists, parses and is structurally equal, and otherwise ends
in a state equal to a freshly-reset state. -/
theorem reload_state_agreement (env : Env) (fs : CFS)
    (hne : env.supported_platforms ≠ []) :
    (reload env fs = Except.error () ↔
      ∃ p ∈ env.supported_platforms,
        fs (get_platform_path env p) = some Content.malformed)
    ∧ ((∀ p ∈ env.supported_platforms,
          fs (get_platform_path env p) ≠ some Content.malformed) →
        (∀ d, (∀ p ∈ env.supported_platforms,
                load_opt fs (get_platform_path env p) = some d) →
            reload env fs = Except.ok d)
        ∧ ((¬ ∃ d, ∀ p ∈ env.supported_platforms,
              load_opt fs (get_platform_path env p) = some d) →
            reload env fs = Except.ok (reset env))) := by
  have hla := load_all_eq env fs env.supported_platforms
  constructor
  · -- error characterization
    by_cases hclean : ∀ p ∈ env.supported_platforms,
        fs (get_platform_path env p) ≠ some Content.malformed
    · rw [if_pos hclean] at hla
      constructor
      · intro herr
        rw [reload_eq, hla] at herr
        rcases hh : (env.supported_platforms.map fun p =>
            load_opt fs (get_platform_path env p)).head? with _ | ⟨_ | d⟩ <;>
          simp only [hh] at herr
        · exact Except.noConfusion herr
        · exact Except.noConfusion herr
        · split at herr <;> exact Except.noConfusion herr
      · rintro ⟨p, hp, hmal⟩
        exact absurd hmal (hclean p hp)
    · rw [if_neg hclean] at hla
      rw [reload_eq, hla]
      push_neg at hclean
      simpa using hclean
  · intro hclean
    rw [if_pos hclean] at hla
    constructor
    · intro d hall
      obtain ⟨p0, rest, hplat⟩ := List.exists_cons_of_ne_nil hne
      have hhead : (env.supported_platforms.map fun p =>
          load_opt fs (get_platform_path env p)).head? = some (some d) := by
        rw [hplat]
        simp [hall p0 (by rw [hplat]; simp)]
      simp only [reload_eq, hla, hhead]
      rw [if_pos]
      apply (drop_one_eq_dropLast_iff _).mpr
      intro x hx y hy
      obtain ⟨px, hpx, rfl⟩ := List.mem_map.mp hx
      obtain ⟨py, hpy, rfl⟩ := List.mem_map.mp hy
      rw [hall px hpx, hall py hpy]
    · intro hnoagree
      simp only [reload_eq, hla]
      rcases hh : (env.supported_platforms.map fun p =>
          load_opt fs (get_platform_path env p)).head? with _ | ⟨_ | d⟩
      · simp [hh]
      · simp [hh]
      · simp only [hh]
        rw [if_neg]
        intro hEq
        apply hnoagree
        refine ⟨d, fun p hp => ?_⟩
        have hall := (drop_one_eq_dropLast_iff _).mp hEq
        have hmemp : load_opt fs (get_platform_path env p) ∈
            env.supported_platforms.map fun q =>
              load_opt fs (get_platform_path env q) :=
          List.mem_map_of_mem _ hp
        have hmemd : (some d : Option BuildState) ∈
            env.supported_platforms.map fun q =>
              load_opt fs (get_platform_path env q) :=
          List.mem_of_mem_head? (by simp [hh])
        exact hall _ hmemp _ hmemd

/-- `load_opt` returns a state exactly when the file holds valid content. -/
theorem load_opt_eq_some (fs : CFS) (q : String) (d : BuildState) :
    load_opt fs q = some d ↔ fs q = some (Content.valid d) := by
  unfold load_opt
  cases h : fs q with
  | none => simp
  | some c => cases c <;> simp

/-- A state `reload` ends in is either freshly reset or was read from one of
the platform state files. -/
theorem reload_ok_cases (env : Env) (fs : CFS) (s : BuildState)
    (h : reload env fs = Except.ok s) :
    s = reset env ∨ ∃ p ∈ env.supported_platforms,
      fs (get_platform_path env p) = some (Content.valid s) := by
  have hla := load_all_eq env fs env.supported_platforms
  by_cases hclean : ∀ p ∈ env.supported_platforms,
      fs (get_platform_path env p) ≠ some Content.malformed
  · rw [if_pos hclean] at hla
    rw [reload_eq, hla] at h
    rcases hh : (env.supported_platforms.map fun p =>
        load_opt fs (get_platform_path env p)).head? with _ | ⟨_ | d⟩ <;>
      simp only [hh] at h
    · left; exact (Except.ok.inj h).symm
    · left; exact (Except.ok.inj h).symm
    · split at h
      · right
        have hds : d = s := Except.ok.inj h
        rw [hds] at hh
        cases hp : env.supported_platforms with
        | nil => rw [hp] at hh; simp at hh
        | cons p0 rest =>
          rw [hp] at hh
          simp only [List.map_cons, List.head?_cons, Option.some.injEq] at hh
          exact ⟨p0, List.mem_cons_self p0 rest, (load_opt_eq_some fs _ _).mp hh⟩
      · left; exact (Except.ok.inj h).symm
  · rw [if_neg hclean] at hla
    rw [reload_eq, hla] at h
    exact Except.noConfusion h

/-- Values a `persist` fold can leave at a path: either the serialized state
just written, or whatever was there before. -/
theorem persist_fold_cases (env : Env) (s : BuildState) (l : List String)
    (fs : CFS) (q : String) (c : Content)
    (h : (l.foldl (fun acc p => write_state acc (get_platform_path env p) s) fs) q
        = some c) :
    c = Content.valid s ∨ fs q = some c := by
  induction l generalizing fs with
  | nil => exact Or.inr h
  | cons p rest ih =>
    simp only [List.foldl_cons] at h
    rcases ih _ h with h1 | h2
    · exact Or.inl h1
    · unfold write_state at h2
      by_cases hq : q = get_platform_path env p
      · rw [if_pos hq] at h2
        injection h2 with h3
        exact Or.inl h3.symm
      · rw [if_neg hq] at h2
        exact Or.inr h2

/-- A path already holding the serialized state keeps it through the
`persist` fold. -/
theorem persist_fold_keeps (env : Env) (s : BuildState) (l : List String)
    (fs : CFS) (q : String) (h : fs q = some (Content.valid s)) :
    (l.foldl (fun acc p => write_state acc (get_platform_path env p) s) fs) q
      = some (Content.valid s) := by
  induction l generalizing fs with
  | nil => exact h
  | cons p rest ih =>
    simp only [List.foldl_cons]
    apply ih
    unfold write_state
    by_cases hq : q = get_platform_path env p
    · rw [if_pos hq]
    · rw [if_neg hq]; exact h

/-- `persist` leaves the serialized state at the state-file path of every
platform it iterates. -/
theorem persist_writes_all (env : Env) (s : BuildState) (l : List String)
    (p : String) (hp : p ∈ l) :
    ∀ fs : CFS,
      (l.foldl (fun acc r => write_state acc (get_platform_path env r) s) fs)
        (get_platform_path env p) = some (Content.valid s) := by
  induction l with
  | nil => cases hp
  | cons r rest ih =>
    intro fs
    simp only [List.foldl_cons]
    rcases List.mem_cons.mp hp with rfl | hp'
    · apply persist_fold_keeps
      unfold write_state
      rw [if_pos rfl]
    · exact ih hp' _

/-- The build-state operations a process performs, in the order it performs
them (`reset`, `reload`, `set_slave_properties`, `persist`). -/
inductive BSOp where
  | op_reset : BSOp
  | op_reload : BSOp
  | op_set_slave : List String → List String → String → String → BSOp
  | op_persist : BSOp

/-- Apply one build-state operation to the in-memory state and the content
filesystem. -/
def apply_op (env : Env) (w : BuildState × CFS) : BSOp → Except Unit (BuildState × CFS)
  | BSOp.op_reset => Except.ok (reset env, w.2)
  | BSOp.op_reload =>
    match reload env w.2 with
    | Except.error e => Except.error e
    | Except.ok s => Except.ok (s, w.2)
  | BSOp.op_set_slave a l f e =>
    Except.ok (set_slave_properties env w.1 a l f e, w.2)
  | BSOp.op_persist => Except.ok (w.1, persist env w.1 w.2)

/-- Apply a sequence of build-state operations, stopping at the first raised
exception. -/
def apply_ops (env : Env) (w : BuildState × CFS) : List BSOp → Except Unit (BuildState × CFS)
  | [] => Except.ok w
  | op :: rest =>
    match apply_op env w op with
    | Except.error e => Except.error e
    | Except.ok w1 => apply_ops env w1 rest

/-- The invariant under which `platforms` stays environment-derived: the
in-memory copy records the environment list and so does every parseable
on-disk copy. -/
def platforms_inv (env : Env) (w : BuildState × CFS) : Prop :=
  w.1.platforms = env.supported_platforms ∧
    ∀ q d, w.2 q = some (Content.valid d) → d.platforms = env.supported_platforms

/-- Every single build-state operation preserves `platforms_inv`. -/
theorem apply_op_inv (env : Env) (w : BuildState × CFS) (op : BSOp)
    (w1 : BuildState × CFS) (hinv : platforms_inv env w)
    (h : apply_op env w op = Except.ok w1) : platforms_inv env w1 := by
  cases op with
  | op_reset =>
    simp only [apply_op] at h
    injection h with h2
    subst h2
    exact ⟨rfl, hinv.2⟩
  | op_reload =>
    simp only [apply_op] at h
    cases hr : reload env w.2 with
    | error e => rw [hr] at h; exact Except.noConfusion h
    | ok s =>
      rw [hr] at h
      injection h with h2
      subst h2
      refine ⟨?_, hinv.2⟩
      rcases reload_ok_cases env w.2 s hr with rfl | ⟨p, hp, hfs⟩
    
      · rfl
      · exact hinv.2 _ _ hfs
  | op_set_slave a l f e =>
    simp only [apply_op] at h
    injection h with h2
    subst h2
    exact ⟨hinv.1, hinv.2⟩
  | op_persist =>
    simp only [apply_op] at h
    injection h with h2
    subst h2
    refine ⟨hinv.1, ?_⟩
    intro q d hq
    rcases persist_fold_cases env w.1 w.1.platforms w.2 q _ hq with h1 | h2
    · rw [Content.valid.inj h1]
      exact hinv.1
    · exact hinv.2 q d h2

/-- Any successful sequence of build-state operations preserves
`platforms_inv`. -/
theorem apply_ops_inv (env : Env) (ops : List BSOp) :
    ∀ w w1, platforms_inv env w → apply_ops env w ops = Except.ok w1 →
      platforms_inv env w1 := by
  induction ops with
  | nil =>
    intro w w1 hinv h
    simp only [apply_ops] at h
    injection h with h2
    subst h2
    exact hinv
  | cons op rest ih =>
    intro w w1 hinv h
    simp only [apply_ops] at h
    cases hop : apply_op env w op with
    | error e => rw [hop] at h; exact Except.noConfusion h
    | ok wm =>
      rw [hop] at h
      exact ih wm w1 (apply_op_inv env w op wm hinv hop) h

deriving instance DecidableEq for Except

/-! ## Concrete instances used by witnesses and counterexamples -/

/-- A concrete build environment. -/
def envW : Env :=
  { supported_platforms := ["iphoneos", "iphonesimulator"]
    platform_name := "iphoneos"
    ufw_master_platform := none
    project_temp_dir := "/tmp/pt"
    configuration := "Release"
    product_name := "Prod"
    current_variant := "normal"
    object_file_dir := "/obj"
    executable_name := "Prod"
    built_products_dir := "/bp"
    executable_path := "Prod.framework/Prod"
    archs := ["armv7", "arm64"]
    dt_toolchain_dir := "/tc"
    source_root := "/srcroot"
    framework_version := "A"
    wrapper_name := "Prod.framework" }

/-- A content filesystem where the first platform's state file exists but does
not parse. -/
def fs_malformed : CFS := fun q =>
  if q = get_platform_path envW "iphoneos" then some Content.malformed else none

/-- An empty content filesystem. -/
def fs_empty : CFS := fun _ => none

/-- A persisted state recording a platform list different from the
environment's. -/
def dX : BuildState :=
  { platforms := ["X"]
    last_completion := 7
    slave_platform := none
    slave_architectures := []
    slave_linked_archive_paths := []
    slave_built_fw_path := none
    slave_built_embedded_fw_path := none }

/-- Both platforms' state files exist, parse, and agree on `dX`. -/
def fs_agreeX : CFS := fun q =>
  if q = get_platform_path envW "iphoneos"
      ∨ q = get_platform_path envW "iphonesimulator" then
    some (Content.valid dX)
  else none

/-- A well-formed state equal to what a same-environment `persist` writes. -/
def dW : BuildState :=
  { platforms := ["iphoneos", "iphonesimulator"]
    last_completion := 42
    slave_platform := none
    slave_architectures := []
    slave_linked_archive_paths := []
    slave_built_fw_path := none
    slave_built_embedded_fw_path := none }

/-- Both platforms' state files exist, parse, and agree on `dW`. -/
def fs_agreeW : CFS := fun q =>
  if q = get_platform_path envW "iphoneos"
      ∨ q = get_platform_path envW "iphonesimulator" then
    some (Content.valid dW)
  else none

/-! ## C1 -/

/-- C1, counterexample: with one per-platform state file present but
unparseable, `reload()` raises the parse error instead of ending in a state
equal to a freshly-reset state, so a parse failure is not "treated as missing
and never fatal" as the claim states. -/
theorem c1_counterexample :
    fs_malformed (get_platform_path envW "iphoneos") = some Content.malformed
      ∧ reload envW fs_malformed = Except.error ()
      ∧ reload envW fs_malformed ≠ Except.ok (reset envW) := by
  refine ⟨rfl, rfl, ?_⟩
  decide

/-- C1, witness for the amended theorem: on a filesystem where both copies
exist, parse, and agree on `dW`, `reload` adopts `dW`. -/
theorem c1_witness : reload envW fs_agreeW = Except.ok dW := by
  have h := (reload_state_agreement envW fs_agreeW (by decide)).2 (by decide)
  exact h.1 dW (by decide)

/-! ## C7 -/

/-- C7, counterexample: starting from a freshly-reset state, the single
operation sequence `[reload]` on a filesystem whose two state files agree on a
state recording platform list `["X"]` ends with `platforms = ["X"]`, different
from the environment-derived list — `reload` adoption overwrites `platforms`
from disk, so the field is not invariant under all `BuildState` operations. -/
theorem c7_counterexample :
    apply_ops envW (reset envW, fs_agreeX) [BSOp.op_reload]
        = Except.ok (dX, fs_agreeX)
      ∧ dX.platforms ≠ envW.supported_platforms := by
  refine ⟨rfl, ?_⟩
  decide

/-- C7 (amended): `platforms` is environment-derived after construction and
after any successful sequence of `reset`, `reload`, `set_slave_properties` and
`persist` operations, provided every parseable on-disk copy also records the
environment-derived list (which `persist` maintains); `reload` adoption is the
one operation that copies the field back in from disk. -/
theorem c7_platforms_amended (env : Env) (w w1 : BuildState × CFS)
    (ops : List BSOp)
    (hst : w.1.platforms = env.supported_platforms)
    (hfs : ∀ q d, w.2 q = some (Content.valid d) →
      d.platforms = env.supported_platforms)
    (h : apply_ops env w ops = Except.ok w1) :
    w1.1.platforms = env.supported_platforms ∧
      ∀ q d, w1.2 q = some (Content.valid d) →
        d.platforms = env.supported_platforms := by
  have := apply_ops_inv env ops w w1 ⟨hst, hfs⟩ h
  exact ⟨this.1, this.2⟩

/-- C7, witness: a concrete persist-then-reload round trip from a fresh state
on an empty filesystem keeps `platforms` environment-derived. -/
theorem c7_witness :
    (reset envW, persist envW (reset envW) fs_empty).1.platforms
      = envW.supported_platforms := by
  have h := c7_platforms_amended envW (reset envW, fs_empty)
      (reset envW, persist envW (reset envW) fs_empty) [BSOp.op_persist]
      rfl (fun q d hq => by simp [fs_empty] at hq) rfl
  exact h.1

/-! ## C2 -/

/-- A state whose recorded completion time is 5. -/
def s5 : BuildState :=
  { platforms := ["iphoneos", "iphonesimulator"]
    last_completion := 5
    slave_platform := none
    slave_architectures := []
    slave_linked_archive_paths := []
    slave_built_fw_path := none
    slave_built_embedded_fw_path := none }

/-- The primary linked executable exists with modification time 10 (newer than
`s5.last_completion = 5`); nothing else exists. -/
def mfs_newer : MFS := fun q =>
  if q = local_exe_path envW then some 10 else none

/-- The primary linked executable exists with modification time 3 (older than
`s5.last_completion = 5`); nothing else exists. -/
def mfs_older : MFS := fun q =>
  if q = local_exe_path envW then some 3 else none

/-- C2, counterexample: a master invocation where the primary executable
exists and is newer (mtime 10) than the persisted `last_completion` (5) does
NOT skip — it invokes the slave, links, restores headers and assembles
bundles, contradicting the claim that this exact situation skips to a no-op
success.  The code's guard is the opposite: it skips when the executable is
not newer. -/
theorem c2_counterexample :
    is_master envW = true
      ∧ mfs_newer (local_exe_path envW) = some 10
      ∧ s5.last_completion = 5
      ∧ run_build_phases envW s5 mfs_newer mfs_newer =
          { invoked_slave := true
            set_slave_props := false
            per_arch_link := true
            final_link := true
            header_restore := true
            add_symlinks := true
            build_embedded := true
            master_finalize := true } :=
  ⟨rfl, rfl, rfl, rfl⟩

/-- C2 (amended): on a master invocation the entry guard yields a no-op skip
(no slave invocation, no linking, no header restoration, no bundle assembly)
iff the primary linked executable exists and its modification time is NOT
newer than (i.e. at most) the persisted `last_completion`. -/
theorem c2_entry_guard_amended (env : Env) (s : BuildState)
    (mfs_entry mfs_link : MFS) (hm : is_master env = true) :
    (rebuild_needed env mfs_entry s = false ↔
      ∃ m, mfs_entry (local_exe_path env) = some m ∧ m ≤ s.last_completion)
    ∧ (rebuild_needed env mfs_entry s = false →
        run_build_phases env s mfs_entry mfs_link =
          { invoked_slave := false
            set_slave_props := false
            per_arch_link := false
            final_link := false
            header_restore := false
            add_symlinks := false
            build_embedded := false
            master_finalize := false }) := by
  constructor
  · unfold rebuild_needed
    rw [hm]
    cases hme : mfs_entry (local_exe_path env) with
    | none => simp
    | some m => simp
  · intro hrb
    unfold run_build_phases
    simp [hrb]

/-- C2, witness: with the executable at mtime 3 and `last_completion = 5`, the
guard skips and no phase runs. -/
theorem c2_witness :
    rebuild_needed envW mfs_older s5 = false
      ∧ (run_build_phases envW s5 mfs_older mfs_older).invoked_slave = false := by
  have h := c2_entry_guard_amended envW s5 mfs_older mfs_older rfl
  have hskip := h.1.mpr ⟨3, rfl, by decide⟩
  exact ⟨hskip, by rw [h.2 hskip]⟩

/-! ## C3 -/

/-- Stated from the claim's words, for comparison with the code: for every
architecture of the current platform, the per-architecture intermediate
archive exists, is readable, and is not older than that architecture's linked
archive (the claim's "the platform's primary linked executable", which in the
code is the per-architecture `get_linked_archive_path`). -/
def link_targets_fresh_claim (env : Env) (mfs : MFS) : Bool :=
  env.archs.all fun arch =>
    match mfs (get_linked_archive_path env arch),
          mfs (get_linked_ufw_archive_path env arch) with
    | some link_time, some ufw_time => !(link_time > ufw_time)
    | _, _ => false

/-- Every linked archive and every intermediate archive exists with
modification time 0 (the Unix epoch); the primary executable is absent. -/
def mfs_zero : MFS := fun q =>
  if q ∈ envW.archs.map (get_linked_archive_path envW)
      ++ envW.archs.map (get_linked_ufw_archive_path envW) then
    some 0
  else none

/-- C3, counterexample: with every per-architecture intermediate archive
present, readable and not older than its linked archive (all mtimes 0), the
claim says the final universal link is skipped; but `are_link_targets_clean`
treats a zero mtime as falsy (`if not link_time or not ufw_time`), so the
final link is redone. -/
theorem c3_counterexample :
    link_targets_fresh_claim envW mfs_zero = true
      ∧ is_master envW = true
      ∧ rebuild_needed envW mfs_zero (reset envW) = true
      ∧ (run_build_phases envW (reset envW) mfs_zero mfs_zero).final_link = true :=
  ⟨rfl, rfl, rfl, rfl⟩

/-- Per-architecture staleness condition of the code, in explicit form. -/
theorem clean_arch_iff (x y : Option Nat) :
    (match x, y with
      | some link_time, some ufw_time =>
        !(link_time == 0 || ufw_time == 0 || link_time > ufw_time)
      | _, _ => false) = true ↔
      ∃ lt ut, x = some lt ∧ y = some ut ∧ 0 < lt ∧ 0 < ut ∧ lt ≤ ut := by
  cases x with
  | none => simp
  | some lt =>
    cases y with
    | none => simp
    | some ut =>
      simp only [Option.some.injEq]
      constructor
      · intro h
        refine ⟨lt, ut, rfl, rfl, ?_, ?_, ?_⟩ <;>
          · simp at h
            omega
      · rintro ⟨lt2, ut2, rfl, rfl, h1, h2, h3⟩
        simp
        omega

/-- C3 (amended): on a master invocation that reaches the linking stage, the
final universal link is skipped iff for every architecture both the linked
archive and the intermediate archive exist with NONZERO modification times and
the intermediate archive is not older than that architecture's linked archive
(a zero mtime counts as stale); and after a successful relink (which stamps
every intermediate archive with the link time `t`), re-running with no source
changes finds the targets clean, hence performs no re-linking. -/
theorem c3_staleness_amended (env : Env) (s : BuildState)
    (mfs_entry mfs_link : MFS) (t : Nat) (hm : is_master env = true)
    (hrb : rebuild_needed env mfs_entry s = true) :
    ((run_build_phases env s mfs_entry mfs_link).final_link = false ↔
      are_link_targets_clean env mfs_link = true)
    ∧ (are_link_targets_clean env mfs_link = true ↔
        ∀ a ∈ env.archs, ∃ lt ut,
          mfs_link (get_linked_archive_path env a) = some lt ∧
          mfs_link (get_linked_ufw_archive_path env a) = some ut ∧
          0 < lt ∧ 0 < ut ∧ lt ≤ ut)
    ∧ ((∀ a ∈ env.archs, ∃ lt,
          mfs_link (get_linked_archive_path env a) = some lt ∧ 0 < lt ∧ lt ≤ t) →
        (∀ a ∈ env.archs,
          get_linked_archive_path env a ∉
            env.archs.map (get_linked_ufw_archive_path env)) →
        are_link_targets_clean env (relink_mfs env mfs_link t) = true) := by
  refine ⟨?_, ?_, ?_⟩
  · unfold run_build_phases
    simp only [hrb, hm, Bool.true_and, Bool.and_true]
    cases hc : are_link_targets_clean env mfs_link <;> simp
  · rw [are_link_targets_clean, List.all_eq_true]
    apply forall_congr'
    intro a
    apply imp_congr_right
    intro ha
    exact clean_arch_iff _ _
  · intro hlt hdisj
    rw [are_link_targets_clean, List.all_eq_true]
    intro a ha
    obtain ⟨lt, hlink, hpos, hle⟩ := hlt a ha
    have h1 : relink_mfs env mfs_link t (get_linked_ufw_archive_path env a)
        = some t := by
      unfold relink_mfs
      rw [if_pos (List.mem_map_of_mem _ ha)]
    have h2 : relink_mfs env mfs_link t (get_linked_archive_path env a)
        = some lt := by
      unfold relink_mfs
      rw [if_neg (hdisj a ha)]
      exact hlink
    simp only [h1, h2]
    simp
    omega

/-- Linked archives at mtime 3, intermediate archives at mtime 5, executable
absent: the link targets are clean. -/
def mfs_clean : MFS := fun q =>
  if q ∈ envW.archs.map (get_linked_archive_path envW) then some 3
  else if q ∈ envW.archs.map (get_linked_ufw_archive_path envW) then some 5
  else none

/-- C3, witness: with clean targets the final link is skipped, and after a
relink at time 9 the targets are again clean. -/
theorem c3_witness :
    (run_build_phases envW (reset envW) mfs_clean mfs_clean).final_link = false
      ∧ are_link_targets_clean envW (relink_mfs envW mfs_clean 9) = true := by
  have h := c3_staleness_amended envW (reset envW) mfs_clean mfs_clean 9 rfl rfl
  constructor
  · exact h.1.mpr rfl
  · refine h.2.2 ?_ (by decide)
    intro a ha
    fin_cases ha <;> exact ⟨3, rfl, by decide, by decide⟩

/-! ## C4 -/

/-- C4, counterexample: an invocation that reaches the linking stage
(`rebuild_needed` holds) but whose link targets are clean performs NO
per-architecture linking — `relink_project` as a whole, per-architecture links
included, is gated on the staleness check, contradicting the claim that the
per-architecture step always runs. -/
theorem c4_counterexample :
    rebuild_needed envW mfs_clean (reset envW) = true
      ∧ are_link_targets_clean envW mfs_clean = true
      ∧ (run_build_phases envW (reset envW) mfs_clean mfs_clean).per_arch_link
          = false :=
  ⟨rfl, rfl, rfl⟩

/-- C4 (amended): on an invocation that reaches the linking stage, the
per-architecture linking step runs iff the link targets are stale — the same
condition that gates the final universal link, which additionally requires the
master role. -/
theorem c4_per_arch_link_amended (env : Env) (s : BuildState)
    (mfs_entry mfs_link : MFS)
    (hrb : rebuild_needed env mfs_entry s = true) :
    ((run_build_phases env s mfs_entry mfs_link).per_arch_link = true ↔
      are_link_targets_clean env mfs_link = false)
    ∧ ((run_build_phases env s mfs_entry mfs_link).final_link = true ↔
        (are_link_targets_clean env mfs_link = false ∧ is_master env = true)) := by
  unfold run_build_phases
  simp only [hrb, Bool.true_and]
  cases hc : are_link_targets_clean env mfs_link <;>
    cases hmr : is_master env <;> simp

/-- C4, witness: with stale targets (missing intermediate archives), the
per-architecture linking step runs. -/
theorem c4_witness :
    (run_build_phases envW (reset envW) mfs_newer mfs_newer).per_arch_link
      = true := by
  have h := c4_per_arch_link_amended envW (reset envW) mfs_newer mfs_newer rfl
  exact h.1.mpr rfl

/-! ## C5 -/

/-- C5: the final universal link command lists, in order: the libtool
invocation and `-static`, the current platform's per-architecture archives in
architecture order, the slave's reported archives from the build state in
their reported order, the resolved executable paths of the static framework
dependencies, the static library dependencies, and finally the output flag
with the final product path. -/
theorem c5_final_link_command_order (env : Env) (st : BuildState)
    (fws libs : List FileNode) :
    get_final_link_command env
        { local_linked_archive_paths := env.archs.map (get_linked_ufw_archive_path env)
          slave_linked_archive_paths := st.slave_linked_archive_paths
          static_frameworks := fws
          static_libraries := libs } =
      [env.dt_toolchain_dir ++ "/usr/bin/libtool", "-static"]
        ++ env.archs.map (get_linked_ufw_archive_path env)
        ++ st.slave_linked_archive_paths
        ++ fws.map (get_exe_path env)
        ++ libs.map (get_exe_path env)
        ++ ["-o", env.built_products_dir ++ "/" ++ env.executable_path] := by
  simp [get_final_link_command, List.append_assoc]

/-! ## C6 -/

/-- The header output root for the counterexample: the listing holds the flat
file `a.h` and a subdirectory `Sub`; the flat copy `a.h` exists and so does a
stale nested copy `Sub/a.h`. -/
def fsC6 : HeaderFS :=
  { entries := ["a.h", "Sub"]
    isDir := fun n => n == "Sub"
    isFile := fun p => p == ["a.h"] || p == ["Sub", "a.h"] }

/-- The single movable header of the counterexample. -/
def movableC6 : List (List String) := [["Sub", "a.h"]]

/-- C6, counterexample: the header `Sub/a.h` is about to be moved in this pass
(its flat copy exists) and the subdirectory `Sub` contains its corresponding
destination file, yet the prune step removes `Sub` — the code keys the prune
on first components of headers whose FLAT copy is absent, never on the
subdirectory's contents, so a subdirectory holding a file of an
about-to-be-moved header is removed, contradicting the claim. -/
theorem c6_counterexample :
    contains_about_to_move_file fsC6 movableC6 "Sub" = true
      ∧ "Sub" ∈ prune_removed fsC6 movableC6 := by
  exact ⟨by decide, by decide⟩

/-- C6 (amended): the prune step removes a pre-existing subdirectory iff it is
listed under the output root, is a directory, and its name is NOT the first
path component of any movable header whose flat (top-level) copy is currently
absent; in particular every subdirectory named by the first component of at
least one movable header whose flat copy is absent (a header already moved in
a previous pass, hence not about to be moved) is preserved. -/
theorem c6_prune_amended (fs : HeaderFS) (movable : List (List String))
    (d : String) :
    (d ∈ prune_removed fs movable ↔
      (d ∈ fs.entries ∧ fs.isDir d = true ∧ d ∉ ignore_firsts fs movable))
    ∧ (∀ h ∈ movable, fs.isFile (top_level_components h) = false →
        h.headD "" = d → d ∉ prune_removed fs movable) := by
  have hchar : d ∈ prune_removed fs movable ↔
      (d ∈ fs.entries ∧ fs.isDir d = true ∧ d ∉ ignore_firsts fs movable) := by
    unfold prune_removed remove_subdirs_removed
    simp only [List.mem_filter, Bool.not_eq_true']
    constructor
    · rintro ⟨⟨h1, h2⟩, h3⟩
      exact ⟨h1, h3, by simpa using h2⟩
    · rintro ⟨h1, h2, h3⟩
      exact ⟨⟨h1, by simpa using h3⟩, h2⟩
  refine ⟨hchar, ?_⟩
  intro h hmem hflat hfirst hrem
  have hig : d ∈ ignore_firsts fs movable := by
    unfold ignore_firsts ignore_headers
    rw [← hfirst]
    apply List.mem_map_of_mem
    rw [List.mem_filter]
    exact ⟨hmem, by rw [hflat]; rfl⟩
  exact (hchar.mp hrem).2.2 hig

/-! ## C8 -/

/-- `py_split_fuel` does not depend on the fuel once the fuel covers the input
length. -/
theorem py_split_fuel_congr (sep : List Char) :
    ∀ n m s, List.length s ≤ n → List.length s ≤ m →
      py_split_fuel sep n s = py_split_fuel sep m s := by
  intro n
  induction n with
  | zero =>
    intro m s hn hm
    have : s = [] := List.eq_nil_of_length_eq_zero (Nat.le_zero.mp hn)
    subst this
    cases m <;> rfl
  | succ n ih =>
    intro m s hn hm
    cases s with
    | nil => cases m <;> rfl
    | cons c rest =>
      cases m with
      | zero => simp at hm
      | succ m' =>
        simp only [py_split_fuel]
        have hr : rest.length ≤ n := by
          simp only [List.length_cons] at hn
          omega
        have hr' : rest.length ≤ m' := by
          simp only [List.length_cons] at hm
          omega
        by_cases hpre : sep.isPrefixOf (c :: rest) = true
        · rw [if_pos hpre, if_pos hpre]
          have hd : (rest.drop (sep.length - 1)).length ≤ n := by
            simp only [List.length_drop]
            omega
          have hd' : (rest.drop (sep.length - 1)).length ≤ m' := by
            simp only [List.length_drop]
            omega
          rw [ih m' _ hd hd']
        · rw [if_neg hpre, if_neg hpre]
          rw [ih m' rest hr hr']

/-- Structure of a Python split: the chunk before the first occurrence,
followed by the split of what follows that occurrence; the whole input when
the separator does not occur. -/
theorem py_split_fuel_spec (sep : List Char) (hsep : sep ≠ []) :
    ∀ n s, List.length s ≤ n →
      py_split_fuel sep n s =
        if occursIn sep s = true then
          take_before_first sep s ::
            py_split sep ((drop_before_first sep s).drop sep.length)
        else [s] := by
  intro n
  induction n with
  | zero =>
    intro s hn
    have : s = [] := List.eq_nil_of_length_eq_zero (Nat.le_zero.mp hn)
    subst this
    simp [py_split_fuel, occursIn, List.isEmpty_iff, hsep]
  | succ n ih =>
    intro s hn
    cases s with
    | nil => simp [py_split_fuel, occursIn, List.isEmpty_iff, hsep]
    | cons c rest =>
      have hr : rest.length ≤ n := by
        simp only [List.length_cons] at hn
        omega
      simp only [py_split_fuel]
      by_cases hpre : sep.isPrefixOf (c :: rest) = true
      · rw [if_pos hpre]
        have hocc : occursIn sep (c :: rest) = true := by
          simp [occursIn, hpre]
        rw [if_pos hocc]
        have htake : take_before_first sep (c :: rest) = [] := by
          simp [take_before_first, hpre]
        have hdrop : drop_before_first sep (c :: rest) = c :: rest := by
          simp [drop_before_first, hpre]
        rw [htake, hdrop]
        obtain ⟨k, hk⟩ : ∃ k, sep.length = k + 1 := by
          cases hsl : sep with
          | nil => exact absurd hsl hsep
          | cons a t => exact ⟨t.length, by simp⟩
        have hdk : (c :: rest).drop sep.length = rest.drop (sep.length - 1) := by
          rw [hk]
          simp
        rw [hdk]
        congr 1
        apply py_split_fuel_congr
        · simp only [List.length_drop]
          omega
        · rfl
      · rw [if_neg hpre]
        rw [ih rest hr]
        have hocc : occursIn sep (c :: rest) = occursIn sep rest := by
          simp [occursIn, hpre]
        have htake : take_before_first sep (c :: rest)
            = c :: take_before_first sep rest := by
          simp [take_before_first, hpre]
        have hdrop : drop_before_first sep (c :: rest)
            = drop_before_first sep rest := by
          simp [drop_before_first, hpre]
        by_cases hor : occursIn sep rest = true
        · rw [if_pos hor, hocc, if_pos hor, htake, hdrop]
        · rw [if_neg hor, hocc, if_neg hor]

/-- `py_split` satisfies the same specification. -/
theorem py_split_spec (sep : List Char) (hsep : sep ≠ []) (s : List Char) :
    py_split sep s =
      if occursIn sep s = true then
        take_before_first sep s ::
          py_split sep ((drop_before_first sep s).drop sep.length)
      else [s] :=
  py_split_fuel_spec sep hsep s.length s le_rfl

/-- When the separator does not occur, nothing precedes a (nonexistent) first
occurrence. -/
theorem take_before_first_of_not_occurs (sep : List Char) :
    ∀ s, occursIn sep s = false → take_before_first sep s = s := by
  intro s
  induction s with
  | nil => intro h; rfl
  | cons c rest ih =>
    intro h
    simp only [occursIn, Bool.or_eq_false_iff] at h
    simp [take_before_first, h.1, ih h.2]

/-- When the separator occurs, the suffix from the first occurrence starts
with the separator. -/
theorem drop_before_first_startsWith (sep : List Char) :
    ∀ s, occursIn sep s = true →
      ∃ t, drop_before_first sep s = sep ++ t := by
  intro s
  induction s with
  | nil =>
    intro h
    simp only [occursIn, List.isEmpty_iff] at h
    exact ⟨[], by simp [drop_before_first, h]⟩
  | cons c rest ih =>
    intro h
    by_cases hpre : sep.isPrefixOf (c :: rest) = true
    · obtain ⟨t, ht⟩ := List.isPrefixOf_iff_prefix.mp hpre
      exact ⟨t, by simp [drop_before_first, hpre, ← ht]⟩
    · simp only [occursIn, hpre, Bool.false_or] at h
      obtain ⟨t, ht⟩ := ih h
      exact ⟨t, by simp [drop_before_first, hpre, ht]⟩

/-- An output in which the banner occurs twice. -/
def c8_two_banners : List Char :=
  "env dump === BUILD NATIVE TARGET one === BUILD NATIVE TARGET two".toList

/-- An output in which the banner does not occur. -/
def c8_no_banner : List Char := "plain build output".toList

/-- An output in which the banner occurs exactly once. -/
def c8_one_banner : List Char :=
  "env dump === BUILD NATIVE TARGET Prod".toList

/-- C8, counterexample: when the banner occurs twice, the logged output is not
the original with only the part before the first occurrence removed — the code
keeps `separator + result[1]`, i.e. only the text up to the SECOND occurrence,
so everything from the second occurrence on is removed too, contradicting the
claim's "nothing after that point removed". -/
theorem c8_counterexample :
    occursIn ufw_separator c8_two_banners = true
      ∧ slave_output_trimmed c8_two_banners
          ≠ drop_before_first ufw_separator c8_two_banners := by
  exact ⟨by decide, by decide⟩

/-- C8 (amended): output without the banner is logged unchanged; output with
the banner is logged as the banner followed by the text strictly between the
first and second occurrences (so everything before the first occurrence AND
everything from the second occurrence on is removed); when the banner occurs
exactly once this equals the original output from the first occurrence on. -/
theorem c8_trim_amended (output : List Char) :
    (occursIn ufw_separator output = false →
      slave_output_trimmed output = output)
    ∧ (occursIn ufw_separator output = true →
        slave_output_trimmed output =
          ufw_separator ++ take_before_first ufw_separator
            ((drop_before_first ufw_separator output).drop ufw_separator.length))
    ∧ (occursIn ufw_separator output = true →
        occursIn ufw_separator
            ((drop_before_first ufw_separator output).drop ufw_separator.length)
          = false →
        slave_output_trimmed output
          = drop_before_first ufw_separator output) := by
  have hsep : ufw_separator ≠ [] := by decide
  refine ⟨?_, ?_, ?_⟩
  · intro hno
    unfold slave_output_trimmed
    rw [py_split_spec ufw_separator hsep output, if_neg]
    rw [hno]
    simp
  · intro hocc
    unfold slave_output_trimmed
    rw [py_split_spec ufw_separator hsep output, if_pos hocc]
    by_cases hor : occursIn ufw_separator
        ((drop_before_first ufw_separator output).drop ufw_separator.length) = true
    · rw [py_split_spec ufw_separator hsep _, if_pos hor]
    · have hfalse : occursIn ufw_separator
          ((drop_before_first ufw_separator output).drop ufw_separator.length)
            = false := by
        simpa using hor
      rw [py_split_spec ufw_separator hsep _, if_neg hor]
      rw [take_before_first_of_not_occurs ufw_separator
        ((drop_before_first ufw_separator output).drop ufw_separator.length)
        hfalse]
  · intro hocc hnor
    unfold slave_output_trimmed
    rw [py_split_spec ufw_separator hsep output, if_pos hocc]
    rw [py_split_spec ufw_separator hsep _, if_neg (by simp [hnor])]
    obtain ⟨t, ht⟩ := drop_before_first_startsWith ufw_separator output hocc
    rw [ht, List.drop_left]

/-- C8, witness: banner-free output is logged unchanged, and output with a
single banner is logged as its suffix from the banner on. -/
theorem c8_witness :
    slave_output_trimmed c8_no_banner = c8_no_banner
      ∧ slave_output_trimmed c8_one_banner
          = drop_before_first ufw_separator c8_one_banner := by
  refine ⟨(c8_trim_amended c8_no_banner).1 (by decide),
    (c8_trim_amended c8_one_banner).2.2 (by decide) (by decide)⟩

/-- A header output root in which `Keep` holds the nested copy of a header
whose flat copy is absent (already moved in a previous pass). -/
def fsC6b : HeaderFS :=
  { entries := ["Keep"]
    isDir := fun n => n == "Keep"
    isFile := fun p => p == ["Keep", "b.h"] }

/-- The single movable header of the preservation scenario. -/
def movableC6b : List (List String) := [["Keep", "b.h"]]

/-- C6, witness: the subdirectory named by the first component of a movable
header whose flat copy is absent is preserved by the prune. -/
theorem c6_witness : "Keep" ∉ prune_removed fsC6b movableC6b := by
  exact (c6_prune_amended fsC6b movableC6b "Keep").2 ["Keep", "b.h"]
    (by decide) (by decide) rfl

/-! ## C9 -/

/-- `attempt_symlink` raises exactly when the (lexically resolved) link target
does not exist. -/
theorem attempt_symlink_error_iff (fs : SFS) (lp lt : String) :
    attempt_symlink fs lp lt = Except.error () ↔
      sfs_find fs (symlink_target_path lp lt) = none := by
  unfold attempt_symlink
  cases h : sfs_find fs (symlink_target_path lp lt) with
  | none => simp
  | some e =>
    simp only [h, Option.isNone_some, Bool.false_eq_true, if_false]
    by_cases hl : (sfs_find fs (normalize_path (split_path lp))).isSome
    · rw [if_pos hl]
      simp
    · rw [if_neg hl]
      simp

/-- What a successful `attempt_symlink` does: the target existed, and either
the link path already existed and nothing changed, or it did not and exactly
the new symlink entry was prepended. -/
theorem attempt_symlink_ok_cases (fs : SFS) (lp lt : String) (fs1 : SFS)
    (h : attempt_symlink fs lp lt = Except.ok fs1) :
    (sfs_find fs (symlink_target_path lp lt)).isSome = true
      ∧ (((sfs_find fs (normalize_path (split_path lp))).isSome = true ∧ fs1 = fs)
        ∨ (sfs_find fs (normalize_path (split_path lp)) = none
            ∧ fs1 = (normalize_path (split_path lp), Entry.symlink lt) :: fs)) := by
  unfold attempt_symlink at h
  cases ht : sfs_find fs (symlink_target_path lp lt) with
  | none =>
    rw [ht] at h
    simp at h
  | some e =>
    rw [ht] at h
    simp only [Option.isNone_some, Bool.false_eq_true, if_false] at h
    refine ⟨by simp [ht], ?_⟩
    by_cases hl : (sfs_find fs (normalize_path (split_path lp))).isSome
    · rw [if_pos hl] at h
      exact Or.inl ⟨hl, (Except.ok.inj h).symm⟩
    · rw [if_neg hl] at h
      exact Or.inr ⟨Option.not_isSome_iff_eq_none.mp hl, (Except.ok.inj h).symm⟩

/-- Lookup in a filesystem with one more entry. -/
theorem sfs_find_cons (fs : SFS) (q : List String) (e : Entry) (p : List String) :
    sfs_find ((q, e) :: fs) p = if q = p then some e else sfs_find fs p := by
  unfold sfs_find
  by_cases h : q = p
  · simp [List.find?_cons, h]
  · simp [List.find?_cons, h]

/-- Prepending an entry at a previously-absent path preserves every existing
lookup. -/
theorem sfs_find_cons_of_absent (fs : SFS) (q : List String) (e : Entry)
    (hq : sfs_find fs q = none) (p : List String) (e' : Entry)
    (hp : sfs_find fs p = some e') :
    sfs_find ((q, e) :: fs) p = some e' := by
  rw [sfs_find_cons]
  by_cases hpq : q = p
  · subst hpq
    rw [hq] at hp
    exact absurd hp (by simp)
  · rw [if_neg hpq]
    exact hp

/-- A successful `attempt_symlink` only extends the filesystem. -/
theorem attempt_symlink_extends (fs : SFS) (lp lt : String) (fs1 : SFS)
    (h : attempt_symlink fs lp lt = Except.ok fs1) (p : List String) (e : Entry)
    (hp : sfs_find fs p = some e) : sfs_find fs1 p = some e := by
  rcases (attempt_symlink_ok_cases fs lp lt fs1 h).2 with ⟨_, rfl⟩ | ⟨habs, rfl⟩
  · exact hp
  · exact sfs_find_cons_of_absent fs _ _ habs p e hp

/-- After a successful `attempt_symlink`, the link path exists. -/
theorem attempt_symlink_link_exists (fs : SFS) (lp lt : String) (fs1 : SFS)
    (h : attempt_symlink fs lp lt = Except.ok fs1) :
    (sfs_find fs1 (normalize_path (split_path lp))).isSome = true := by
  rcases (attempt_symlink_ok_cases fs lp lt fs1 h).2 with ⟨hs, rfl⟩ | ⟨habs, rfl⟩
  · exact hs
  · rw [sfs_find_cons, if_pos rfl]
    simp

/-- A successful `attempt_symlink` never changes what `isdir` sees: it only
adds a symlink entry at a previously-absent path. -/
theorem attempt_symlink_isdir (fs : SFS) (lp lt : String) (fs1 : SFS)
    (h : attempt_symlink fs lp lt = Except.ok fs1) (q : String) :
    sfs_isdir fs1 q = sfs_isdir fs q := by
  rcases (attempt_symlink_ok_cases fs lp lt fs1 h).2 with ⟨_, rfl⟩ | ⟨habs, rfl⟩
  · rfl
  · unfold sfs_isdir
    rw [sfs_find_cons]
    by_cases hq : normalize_path (split_path lp) = normalize_path (split_path q)
    · rw [if_pos hq, ← hq, habs]
      simp
    · rw [if_neg hq]

/-- A second identical `attempt_symlink` on the result of a successful one is
a no-op. -/
theorem attempt_symlink_idem (fs : SFS) (lp lt : String) (fs1 : SFS)
    (h : attempt_symlink fs lp lt = Except.ok fs1) :
    attempt_symlink fs1 lp lt = Except.ok fs1 := by
  have hc := attempt_symlink_ok_cases fs lp lt fs1 h
  obtain ⟨e, he⟩ := Option.isSome_iff_exists.mp hc.1
  have htgt : sfs_find fs1 (symlink_target_path lp lt) = some e :=
    attempt_symlink_extends fs lp lt fs1 h _ e he
  have hlink := attempt_symlink_link_exists fs lp lt fs1 h
  unfold attempt_symlink
  rw [htgt]
  simp only [Option.isNone_some, Bool.false_eq_true, if_false]
  rw [if_pos hlink]

/-- One filesystem extends another: every lookup of the first still succeeds
with the same entry in the second. -/
def sfs_ext (a b : SFS) : Prop :=
  ∀ p e, sfs_find a p = some e → sfs_find b p = some e

/-- Extension is reflexive. -/
theorem sfs_ext_refl (a : SFS) : sfs_ext a a := fun _ _ h => h

/-- Extension is transitive. -/
theorem sfs_ext_trans (a b c : SFS) (h1 : sfs_ext a b) (h2 : sfs_ext b c) :
    sfs_ext a c := fun p e h => h2 p e (h1 p e h)

/-- A successful `attempt_symlink` extends the filesystem. -/
theorem attempt_symlink_ext (fs : SFS) (lp lt : String) (fs1 : SFS)
    (h : attempt_symlink fs lp lt = Except.ok fs1) : sfs_ext fs fs1 :=
  fun p e hp => attempt_symlink_extends fs lp lt fs1 h p e hp

/-- `attempt_symlink` succeeds without change when the target and the link
path both already exist. -/
theorem attempt_symlink_noop (fs : SFS) (lp lt : String)
    (htgt : (sfs_find fs (symlink_target_path lp lt)).isSome = true)
    (hlink : (sfs_find fs (normalize_path (split_path lp))).isSome = true) :
    attempt_symlink fs lp lt = Except.ok fs := by
  unfold attempt_symlink
  obtain ⟨e, he⟩ := Option.isSome_iff_exists.mp htgt
  rw [he]
  simp only [Option.isNone_some, Bool.false_eq_true, if_false]
  rw [if_pos hlink]

/-- Replaying an `attempt_symlink` that succeeded earlier, on any extension of
its result, is a no-op. -/
theorem attempt_symlink_replay (g gnext fs1 : SFS) (lp lt : String)
    (hstep : attempt_symlink g lp lt = Except.ok gnext)
    (hext : sfs_ext gnext fs1) :
    attempt_symlink fs1 lp lt = Except.ok fs1 := by
  apply attempt_symlink_noop
  · obtain ⟨e, he⟩ :=
      Option.isSome_iff_exists.mp (attempt_symlink_ok_cases g lp lt gnext hstep).1
    exact Option.isSome_iff_exists.mpr
      ⟨e, hext _ _ (attempt_symlink_extends g lp lt gnext hstep _ e he)⟩
  · obtain ⟨e, he⟩ :=
      Option.isSome_iff_exists.mp (attempt_symlink_link_exists g lp lt gnext hstep)
    exact Option.isSome_iff_exists.mpr ⟨e, hext _ _ he⟩

/-- C9: `attempt_symlink` creates a link only when the link path does not
already exist (never overwriting) and only when the (lexically resolved) link
target exists, raising otherwise; consequently running the framework symlink
step a second time on the result of a successful first run is a no-op, and an
attempt against a nonexistent target fails identically on every run (the
failed attempt changes nothing). -/
theorem c9_symlink_nondestructive (env : Env) (fs fsZ : SFS)
    (h : add_symlinks_to_framework env fs = Except.ok fsZ) :
    add_symlinks_to_framework env fsZ = Except.ok fsZ
      ∧ (∀ g lp lt g1, attempt_symlink g lp lt = Except.ok g1 →
          (sfs_find g (symlink_target_path lp lt)).isSome = true
            ∧ ((sfs_find g (normalize_path (split_path lp))).isSome = true → g1 = g)
            ∧ (sfs_find g (normalize_path (split_path lp)) = none →
                g1 = (normalize_path (split_path lp), Entry.symlink lt) :: g))
      ∧ (∀ g lp lt, sfs_find g (symlink_target_path lp lt) = none →
          attempt_symlink g lp lt = Except.error ()) := by
  refine ⟨?_, ?_, ?_⟩
  · simp only [add_symlinks_to_framework] at h ⊢
    cases h1 : attempt_symlink fs
        (local_built_fw_path env ++ "/" ++ "Versions/Current")
        env.framework_version with
    | error e =>
      rw [h1] at h
      exact Except.noConfusion h
    | ok g1 =>
      rw [h1] at h
      cases hc1 : sfs_isdir g1
          (local_built_fw_path env ++ "/" ++ "Versions/Current/Headers") with
      | false =>
        simp only [hc1, Bool.false_eq_true, if_false] at h
        cases hc2 : sfs_isdir g1
            (local_built_fw_path env ++ "/" ++ "Versions/Current/Resources") with
        | false =>
          simp only [hc2, Bool.false_eq_true, if_false] at h
          have e4 := attempt_symlink_ext _ _ _ _ h
          rw [attempt_symlink_replay fs g1 fsZ _ _ h1 e4]
          have hH : sfs_isdir fsZ
              (local_built_fw_path env ++ "/" ++ "Versions/Current/Headers")
                = false := by
            rw [attempt_symlink_isdir _ _ _ _ h]
            exact hc1
          simp only [hH, Bool.false_eq_true, if_false]
          have hR : sfs_isdir fsZ
              (local_built_fw_path env ++ "/" ++ "Versions/Current/Resources")
                = false := by
            rw [attempt_symlink_isdir _ _ _ _ h]
            exact hc2
          simp only [hR, Bool.false_eq_true, if_false]
          exact attempt_symlink_replay g1 fsZ fsZ _ _ h (sfs_ext_refl fsZ)
        | true =>
          simp only [hc2, if_true] at h
          cases h3 : attempt_symlink g1
              (local_built_fw_path env ++ "/" ++ "Resources")
              "Versions/Current/Resources" with
          | error e =>
            rw [h3] at h
            exact Except.noConfusion h
          | ok g3 =>
            rw [h3] at h
            have e3 := attempt_symlink_ext _ _ _ _ h3
            have e4 := attempt_symlink_ext _ _ _ _ h
            have e34 := sfs_ext_trans _ _ _ e3 e4
            rw [attempt_symlink_replay fs g1 fsZ _ _ h1 e34]
            have hH : sfs_isdir fsZ
                (local_built_fw_path env ++ "/" ++ "Versions/Current/Headers")
                  = false := by
              rw [attempt_symlink_isdir _ _ _ _ h,
                attempt_symlink_isdir _ _ _ _ h3]
              exact hc1
            simp only [hH, Bool.false_eq_true, if_false]
            have hR : sfs_isdir fsZ
                (local_built_fw_path env ++ "/" ++ "Versions/Current/Resources")
                  = true := by
              rw [attempt_symlink_isdir _ _ _ _ h,
                attempt_symlink_isdir _ _ _ _ h3]
              exact hc2
            simp only [hR, if_true]
            rw [attempt_symlink_replay g1 g3 fsZ _ _ h3 e4]
            exact attempt_symlink_replay g3 fsZ fsZ _ _ h (sfs_ext_refl fsZ)
      | true =>
        simp only [hc1, if_true] at h
        cases h2 : attempt_symlink g1
            (local_built_fw_path env ++ "/" ++ "Headers")
            "Versions/Current/Headers" with
        | error e =>
          rw [h2] at h
          exact Except.noConfusion h
        | ok g2 =>
          rw [h2] at h
          have e2 := attempt_symlink_ext _ _ _ _ h2
          cases hc2 : sfs_isdir g2
              (local_built_fw_path env ++ "/" ++ "Versions/Current/Resources") with
          | false =>
            simp only [hc2, Bool.false_eq_true, if_false] at h
            have e4 := attempt_symlink_ext _ _ _ _ h
            have e24 := sfs_ext_trans _ _ _ e2 e4
            rw [attempt_symlink_replay fs g1 fsZ _ _ h1 e24]
            have hH : sfs_isdir fsZ
                (local_built_fw_path env ++ "/" ++ "Versions/Current/Headers")
                  = true := by
              rw [attempt_symlink_isdir _ _ _ _ h,
                attempt_symlink_isdir _ _ _ _ h2]
              exact hc1
            simp only [hH, if_true]
            rw [attempt_symlink_replay g1 g2 fsZ _ _ h2 e4]
            have hR : sfs_isdir fsZ
                (local_built_fw_path env ++ "/" ++ "Versions/Current/Resources")
                  = false := by
              rw [attempt_symlink_isdir _ _ _ _ h]
              exact hc2
            simp only [hR, Bool.false_eq_true, if_false]
            exact attempt_symlink_replay g2 fsZ fsZ _ _ h (sfs_ext_refl fsZ)
          | true =>
            simp only [hc2, if_true] at h
            cases h3 : attempt_symlink g2
                (local_built_fw_path env ++ "/" ++ "Resources")
                "Versions/Current/Resources" with
            | error e =>
              rw [h3] at h
              exact Except.noConfusion h
            | ok g3 =>
              rw [h3] at h
              have e3 := attempt_symlink_ext _ _ _ _ h3
              have e4 := attempt_symlink_ext _ _ _ _ h
              have e34 := sfs_ext_trans _ _ _ e3 e4
              have e24 := sfs_ext_trans _ _ _ e2 e34
              rw [attempt_symlink_replay fs g1 fsZ _ _ h1 e24]
              have hH : sfs_isdir fsZ
                  (local_built_fw_path env ++ "/" ++ "Versions/Current/Headers")
                    = true := by
                rw [attempt_symlink_isdir _ _ _ _ h,
                  attempt_symlink_isdir _ _ _ _ h3,
                  attempt_symlink_isdir _ _ _ _ h2]
                exact hc1
              simp only [hH, if_true]
              rw [attempt_symlink_replay g1 g2 fsZ _ _ h2 e34]
              have hR : sfs_isdir fsZ
                  (local_built_fw_path env ++ "/" ++ "Versions/Current/Resources")
                    = true := by
                rw [attempt_symlink_isdir _ _ _ _ h,
                  attempt_symlink_isdir _ _ _ _ h3]
                exact hc2
              simp only [hR, if_true]
              rw [attempt_symlink_replay g2 g3 fsZ _ _ h3 e4]
              exact attempt_symlink_replay g3 fsZ fsZ _ _ h (sfs_ext_refl fsZ)
  · intro g lp lt g1 hok
    have hc := attempt_symlink_ok_cases g lp lt g1 hok
    refine ⟨hc.1, ?_, ?_⟩
    · intro hs
      rcases hc.2 with ⟨_, rfl⟩ | ⟨habs, rfl⟩
      · rfl
      · rw [habs] at hs
        exact absurd hs (by simp)
    · intro habs
      rcases hc.2 with ⟨hs, rfl⟩ | ⟨_, rfl⟩
      · rw [habs] at hs
        exact absurd hs (by simp)
      · rfl
  · intro g lp lt htgt
    exact (attempt_symlink_error_iff g lp lt).mpr htgt

/-- A fresh framework bundle: the version directory `Versions/A` exists, and
the built executable sits at `Versions/Current/Prod`. -/
def fsW9 : SFS :=
  [(["bp", "Prod.framework", "Versions", "A"], Entry.dir),
   (["bp", "Prod.framework", "Versions", "Current", "Prod"], Entry.file)]

/-- The bundle after the symlink step: the `Versions/Current` and top-level
executable links have been created. -/
def fsZ9 : SFS :=
  (["bp", "Prod.framework", "Prod"], Entry.symlink "Versions/Current/Prod")
    :: (["bp", "Prod.framework", "Versions", "Current"], Entry.symlink "A")
    :: fsW9

/-- C9, witness: after a successful first run created the links, running the
symlink step again is a no-op. -/
theorem c9_witness : add_symlinks_to_framework envW fsZ9 = Except.ok fsZ9 :=
  (c9_symlink_nondestructive envW fsW9 fsZ9 (by decide)).1

/-! ## C10 -/

/-- C10: when a master build that needed a rebuild runs to completion with
warnings issued and fail-on-warnings configured, the process exit code is 1
while the persisted `BuildState` is the fully finalized one — slave fields
reset, `lastCompletion` stamped with the build time, different from a fresh
state — and `persist` writes exactly that state to every platform's state
file; only an exception resets the state before the final persist; and the
finalized state makes the next invocation's entry guard (executable present
and not newer than the stamp) skip. -/
theorem c10_warning_escalated_completion (env : Env) (s : BuildState)
    (mfs_entry mfs_next : MFS) (fs : CFS) (t m : Nat)
    (hm : is_master env = true)
    (hrb : rebuild_needed env mfs_entry s = true)
    (ht : 0 < t)
    (hnext : mfs_next (local_exe_path env) = some m) (hmle : m ≤ t) :
    main_outcome env false true (run_build_state_master env s mfs_entry t)
        = (1, { reset env with last_completion := t })
      ∧ (run_build_state_master env s mfs_entry t).slave_platform = none
      ∧ (run_build_state_master env s mfs_entry t).slave_architectures = []
      ∧ (run_build_state_master env s mfs_entry t).slave_linked_archive_paths = []
      ∧ (run_build_state_master env s mfs_entry t).slave_built_fw_path = none
      ∧ (run_build_state_master env s mfs_entry t).slave_built_embedded_fw_path
          = none
      ∧ (run_build_state_master env s mfs_entry t).last_completion = t
      ∧ run_build_state_master env s mfs_entry t ≠ reset env
      ∧ main_outcome env true true (run_build_state_master env s mfs_entry t)
          = (1, reset env)
      ∧ (∀ p ∈ env.supported_platforms,
          persist env (run_build_state_master env s mfs_entry t) fs
              (get_platform_path env p)
            = some (Content.valid (run_build_state_master env s mfs_entry t)))
      ∧ rebuild_needed env mfs_next
          (run_build_state_master env s mfs_entry t) = false := by
  have hstamp : run_build_state_master env s mfs_entry t
      = { reset env with last_completion := t } := by
    unfold run_build_state_master
    rw [hrb]
    simp
  rw [hstamp]
  refine ⟨?_, rfl, rfl, rfl, rfl, rfl, rfl, ?_, rfl, ?_, ?_⟩
  · unfold main_outcome config_fail_on_warnings
    simp
  · intro heq
    have := congrArg BuildState.last_completion heq
    simp only [reset] at this
    omega
  · intro p hp
    exact persist_writes_all env { reset env with last_completion := t }
      env.supported_platforms p hp fs
  · unfold rebuild_needed
    rw [hm]
    simp only [hnext]
    simp
    omega

/-- C10, witness: concrete master completion with warnings at time 20 exits 1
with the stamped state, and the next invocation (executable at mtime 3) skips. -/
theorem c10_witness :
    main_outcome envW false true (run_build_state_master envW s5 mfs_newer 20)
        = (1, { reset envW with last_completion := 20 })
      ∧ rebuild_needed envW mfs_older
          (run_build_state_master envW s5 mfs_newer 20) = false := by
  have h := c10_warning_escalated_completion envW s5 mfs_newer mfs_older
    fs_empty 20 3 rfl rfl (by decide) rfl (by decide)
  exact ⟨h.1, h.2.2.2.2.2.2.2.2.2.2⟩

end BuildFW
